import Mathlib

/-!
Verification development for the MapifyIt POI geocoding backend
(`backend/index.js` plus the frontend ingestion filter in `MapView.jsx`).

The JavaScript handlers are shallowly embedded:
strings stay `String`, JSON numbers become `ℚ` (exact stand-in for JS
numbers), turf's haversine distance becomes a real-valued function, and
each Express handler becomes a total Lean function returning
`Except GeoError _` mirroring its status-code branches.
-/

/-- Errors returned by the HTTP handlers: 400 (invalid input),
503 (POI data not loaded) and 404 (no POI found). -/
inductive GeoError where
  | invalidInput
  | indexUnavailable
  | notFound
deriving DecidableEq, Repr

/-- JS whitespace characters recognised by `trim` (ASCII part). -/
def isJsWs (c : Char) : Bool :=
  c = ' ' || c = '\t' || c = '\n' || c = '\r' || c = '\x0b' || c = '\x0c'

/-- JS string-or (`a || d`): `undefined`/`null`/`""` are falsy. -/
def jsOrStr (a : Option String) (d : String) : String :=
  match a with
  | none => d
  | some s => if s = "" then d else s

/-- `String.toLowerCase()` modelled characterwise. -/
def jsToLower (s : String) : String := ⟨s.data.map Char.toLower⟩

/-- List-level `trim`: drop JS whitespace from both ends. -/
def jsTrimL (l : List Char) : List Char :=
  ((l.dropWhile isJsWs).reverse.dropWhile isJsWs).reverse

/-- `String.trim()` modelled on the underlying character list. -/
def jsTrim (s : String) : String := ⟨jsTrimL s.data⟩

/-- `sub` is a prefix of `s` (character lists). -/
def leadsWith : List Char → List Char → Bool
  | [], _ => true
  | _ :: _, [] => false
  | a :: su, b :: t => a = b && leadsWith su t

/-- `s.includes(sub)` on character lists: some suffix of `s` starts with `sub`. -/
def jsIncludesL : List Char → List Char → Bool
  | [], sub => leadsWith sub []
  | c :: t, sub => leadsWith sub (c :: t) || jsIncludesL t sub

/-- `String.includes` modelled on the underlying character lists. -/
def jsIncludes (s sub : String) : Bool := jsIncludesL s.data sub.data

/-- Digit run of a character list folded into a natural number. -/
def digitsToNat (l : List Char) : Nat :=
  l.foldl (fun a c => a * 10 + (c.toNat - 48)) 0

/-- First character of a list is the given character. -/
def headIs (l : List Char) (c : Char) : Bool :=
  match l with
  | [] => false
  | x :: _ => x = c

/-- Exponent part after `e`/`E` in `parseFloat`: optional sign then digits;
`none` when no digit follows (JS then ignores the exponent marker). -/
def parseExpPart (l : List Char) : Option ℤ :=
  let rest := if headIs l '+' || headIs l '-' then l.tail else l
  let ds := rest.takeWhile Char.isDigit
  if ds = [] then none
  else if headIs l '-' then some (-(digitsToNat ds : ℤ))
  else some ((digitsToNat ds : ℤ))

/-- JS `parseFloat` on a character list: optional leading whitespace, sign,
integer digits, optional fraction, optional exponent; `none` models `NaN`
(no digit parsed at all). `Infinity` literals are outside the modelled
input space. -/
def jsParseFloatL (l : List Char) : Option ℚ :=
  let l1 := l.dropWhile isJsWs
  let sgn : ℚ := if headIs l1 '-' then -1 else 1
  let l2 := if headIs l1 '+' || headIs l1 '-' then l1.tail else l1
  let ip := l2.takeWhile Char.isDigit
  let l3 := l2.dropWhile Char.isDigit
  let fp := if headIs l3 '.' then l3.tail.takeWhile Char.isDigit else []
  let l4 := if headIs l3 '.' then l3.tail.dropWhile Char.isDigit else l3
  if ip = [] ∧ fp = [] then none
  else
    let mant : ℚ := (digitsToNat ip : ℚ) + (digitsToNat fp : ℚ) / ((10 : ℚ) ^ fp.length)
    let ex : ℤ := if headIs l4 'e' || headIs l4 'E' then (parseExpPart l4.tail).getD 0 else 0
    some (sgn * mant * (10 : ℚ) ^ ex)

/-- JS `parseFloat` on a string (`none` models `NaN`). -/
def jsParseFloat (s : String) : Option ℚ := jsParseFloatL s.data

/-- A feature of the loaded `enrichedPois.geojson` collection: the
properties the backend reads, plus point coordinates `[lng, lat]`. -/
structure Feature where
  name : Option String
  name_clean : Option String
  category_group : Option String
  amenity : Option String
  lng : ℚ
  lat : ℚ
deriving DecidableEq, Repr

/-- One entry of the `/search` response list. -/
structure SearchResult where
  name : String
  category : String
  coordinates : ℚ × ℚ
deriving DecidableEq, Repr

/-- The name the `/search` filter tests:
`f.properties?.name || f.properties?.name_clean || ''`. -/
def searchName (f : Feature) : String :=
  jsOrStr f.name (jsOrStr f.name_clean "")

/-- Normalised query: `q.toLowerCase().trim()`. -/
def normQuery (q : String) : String := jsTrim (jsToLower q)

/-- Response mapping of a matched feature. -/
def toSearchResult (f : Feature) : SearchResult :=
  { name := jsOrStr f.name (jsOrStr f.name_clean "Unnamed")
    category := jsOrStr f.category_group (jsOrStr f.amenity "N/A")
    coordinates := (f.lng, f.lat) }

/-- Core of the `/search` handler: filter by lowercase substring match,
keep the first 20, map to response entries. -/
def searchImpl (q : String) (pois : List Feature) : List SearchResult :=
  ((pois.filter fun f => jsIncludes (jsToLower (searchName f)) (normQuery q)).take 20).map
    toSearchResult

/-- The `/search` Express handler: 400 when `q` is missing or empty
(JS falsy), 503 when the POI collection is not loaded, otherwise the
result list. -/
def searchHandler (q : Option String) (coll : Option (List Feature)) :
    Except GeoError (List SearchResult) :=
  match q with
  | none => .error .invalidInput
  | some qs =>
    if qs = "" then .error .invalidInput
    else
      match coll with
      | none => .error .indexUnavailable
      | some pois => .ok (searchImpl qs pois)

/-- Degrees to radians, as turf's `degreesToRadians`. -/
noncomputable def degToRad (d : ℝ) : ℝ := d * (Real.pi / 180)

/-- `Math.atan2 y x`, modelled as the argument of the complex number
`x + y i` (principal value, matching JS semantics on real inputs). -/
noncomputable def atan2 (y x : ℝ) : ℝ := Complex.arg (Complex.mk x y)

/-- Haversine of an angle: `sin²(x/2)`. -/
noncomputable def hav (x : ℝ) : ℝ := Real.sin (x / 2) ^ 2

/-- The `a` term of turf's haversine distance between
`(fromLng, fromLat)` and `(toLng, toLat)` (all in degrees). -/
noncomputable def turfA (fromLng fromLat toLng toLat : ℝ) : ℝ :=
  hav (degToRad (toLat - fromLat)) +
    hav (degToRad (toLng - fromLng)) * Real.cos (degToRad fromLat) * Real.cos (degToRad toLat)

/-- `turf.distance` in kilometers: great-circle distance on a sphere of
radius 6371.0088 km via the haversine formula. -/
noncomputable def turfDistanceKm (fromLng fromLat toLng toLat : ℝ) : ℝ :=
  6371.0088 *
    (2 * atan2 (Real.sqrt (turfA fromLng fromLat toLng toLat))
      (Real.sqrt (1 - turfA fromLng fromLat toLng toLat)))

/-- Distance (km) from the query point `(qLng, qLat)` to a feature, as the
`/reverse` loop computes it: `turf.distance(queryPoint, f)`. -/
noncomputable def distQ (qLng qLat : ℚ) (f : Feature) : ℝ :=
  turfDistanceKm (qLng : ℝ) (qLat : ℝ) (f.lng : ℝ) (f.lat : ℝ)

/-- One iteration of the `/reverse` scan: starting from
`nearest = null, minDist = Infinity`, replace the best candidate exactly
when the new distance is strictly smaller (every real distance beats
`Infinity`). -/
noncomputable def scanStep (dist : Feature → ℝ) :
    Option (Feature × ℝ) → Feature → Option (Feature × ℝ)
  | none, f => some (f, dist f)
  | some (b, m), f => if dist f < m then some (f, dist f) else some (b, m)

/-- The full `forEach` scan of the `/reverse` handler. -/
noncomputable def nearestScan (dist : Feature → ℝ) (l : List Feature) :
    Option (Feature × ℝ) :=
  l.foldl (scanStep dist) none

/-- `minDist.toFixed(2)` then `parseFloat`: round to 2 decimal places. -/
noncomputable def round2 (x : ℝ) : ℝ := (round (x * 100) : ℤ) / 100

/-- The `/reverse` response body. -/
structure RevOutput where
  name : String
  category : String
  coordinates : ℚ × ℚ
  distance_km : ℝ

/-- Response mapping of the nearest feature found by the scan. -/
noncomputable def toRevOutput (f : Feature) (d : ℝ) : RevOutput :=
  { name := jsOrStr f.name (jsOrStr f.name_clean "Unnamed")
    category := jsOrStr f.category_group (jsOrStr f.amenity "N/A")
    coordinates := (f.lng, f.lat)
    distance_km := round2 d }

/-- The parse-and-scan tail of the `/reverse` handler: 400 when either
coordinate parses to `NaN`, 404 when the scan finds nothing, otherwise
the nearest POI with its rounded distance. -/
noncomputable def reverseCore (latS lngS : String) (pois : List Feature) :
    Except GeoError RevOutput :=
  match jsParseFloat latS, jsParseFloat lngS with
  | some latNum, some lngNum =>
    match nearestScan (distQ lngNum latNum) pois with
    | none => .error .notFound
    | some (f, d) => .ok (toRevOutput f d)
  | _, _ => .error .invalidInput

/-- The `/reverse` Express handler: 400 when `lat`/`lng` is missing or
empty (JS falsy), 503 when the collection is not loaded, then the
parse-and-scan tail. -/
noncomputable def reverseHandler (lat lng : Option String)
    (coll : Option (List Feature)) : Except GeoError RevOutput :=
  match lat, lng with
  | some latS, some lngS =>
    if latS = "" ∨ lngS = "" then .error .invalidInput
    else
      match coll with
      | none => .error .indexUnavailable
      | some pois => reverseCore latS lngS pois
  | _, _ => .error .invalidInput

/-- OSM tags the `/api/pois` handler reads. -/
structure OsmTags where
  name : Option String
  amenity : Option String
  tourism : Option String
  shop : Option String
deriving DecidableEq, Repr

/-- An Overpass element as consumed by `/api/pois`. -/
structure OsmElement where
  lat : Option ℚ
  lon : Option ℚ
  tags : Option OsmTags
deriving DecidableEq, Repr

/-- The display name `/api/pois` computes:
`el.tags?.name || el.tags?.amenity || el.tags?.tourism || 'Unnamed POI'`. -/
def apiPoiName (el : OsmElement) : String :=
  jsOrStr (el.tags.bind OsmTags.name)
    (jsOrStr (el.tags.bind OsmTags.amenity)
      (jsOrStr (el.tags.bind OsmTags.tourism) "Unnamed POI"))

/-- Replace the shop tag of an element (identity when no tag bag exists). -/
def setShop (el : OsmElement) (s : Option String) : OsmElement :=
  { el with tags := el.tags.map fun t => { t with shop := s } }

/-- Modelled from the spec: `cleanName`'s fallback priority
name → amenity → shop → tourism → "Unnamed POI" (spec section 4.1);
no such function exists in the repository sources, which skip `shop`. -/
def specNameFallback (el : OsmElement) : String :=
  jsOrStr (el.tags.bind OsmTags.name)
    (jsOrStr (el.tags.bind OsmTags.amenity)
      (jsOrStr (el.tags.bind OsmTags.shop)
        (jsOrStr (el.tags.bind OsmTags.tourism) "Unnamed POI")))

/-- A raw GeoJSON feature as the frontend `fetchPOIs` reads it:
`geometry?.coordinates` as `[lon, lat]` plus the consulted properties. -/
structure RawFeature where
  coordinates : Option (ℚ × ℚ)
  name : Option String
  amenity : Option String
  category_group : Option String
deriving DecidableEq, Repr

/-- A parsed frontend POI (`coords = [lat, lon]`, possibly undefined). -/
structure FrontPOI where
  name : String
  lat : Option ℚ
  lon : Option ℚ
  ptype : String
deriving DecidableEq, Repr

/-- The `.map` step of `fetchPOIs`. -/
def parseRawFeature (f : RawFeature) : FrontPOI :=
  { name := jsOrStr f.name (jsOrStr f.amenity "POI")
    lat := f.coordinates.map Prod.snd
    lon := f.coordinates.map Prod.fst
    ptype := jsOrStr f.amenity (jsOrStr f.category_group "POI") }

/-- JS truthiness of a possibly-undefined number (`0` is falsy). -/
def truthyQ : Option ℚ → Bool
  | none => false
  | some v => decide (v ≠ 0)

/-- The bounding-box filter of `fetchPOIs` over `ISB_BOUNDS`
(33.60–33.75 N, 73.00–73.15 E). -/
def inIsbBounds (p : FrontPOI) : Bool :=
  match p.lat, p.lon with
  | some la, some lo =>
    decide ((33.60 : ℚ) ≤ la) && decide (la ≤ (33.75 : ℚ)) &&
      decide ((73.00 : ℚ) ≤ lo) && decide (lo ≤ (73.15 : ℚ))
  | _, _ => false

/-- The record-validation pipeline of `fetchPOIs`: parse each feature,
drop falsy coordinates, then keep exactly the points inside the fixed
bounding box. -/
def validateRecords (l : List RawFeature) : List FrontPOI :=
  ((l.map parseRawFeature).filter fun p => truthyQ p.lat && truthyQ p.lon).filter inIsbBounds

/-- Consecutive edges of a closed polygon ring. -/
def ringEdges : List (ℚ × ℚ) → List ((ℚ × ℚ) × (ℚ × ℚ))
  | [] => []
  | [_] => []
  | a :: b :: t => (a, b) :: ringEdges (b :: t)

/-- One ray-casting crossing test of the even-odd rule. -/
def crossesRay (pt : ℚ × ℚ) (e : (ℚ × ℚ) × (ℚ × ℚ)) : Bool :=
  decide ((e.1.2 > pt.2) ≠ (e.2.2 > pt.2)) &&
    decide (pt.1 < (e.2.1 - e.1.1) * (pt.2 - e.1.2) / (e.2.2 - e.1.2) + e.1.1)

/-- Modelled from the spec: the "true point-in-polygon test against the
region boundary" demanded by `validate` (spec section 4.1); the repository
sources contain no point-in-polygon implementation. Standard even-odd
ray casting over exact rationals. -/
def pointInPolygon (poly : List (ℚ × ℚ)) (pt : ℚ × ℚ) : Bool :=
  decide (((ringEdges poly).countP (crossesRay pt)) % 2 = 1)

/-- Modelled from the spec: a cleaned record entering `dedup`
(spec section 4.1); the enrichment pipeline is not in the sources. -/
structure CleanRec where
  name : String
  lng : ℚ
  lat : ℚ
deriving DecidableEq, Repr

/-- Modelled from the spec: name normalisation "lowercase,
whitespace-collapsed" (spec section 3). -/
def collapseStep (acc : List Char × Bool) (c : Char) : List Char × Bool :=
  if isJsWs c then (acc.1, true)
  else ((acc.1 ++ (if acc.2 ∧ acc.1 ≠ [] then [' '] else [])) ++ [c], false)

/-- Modelled from the spec: normalized name, lowercase with internal
whitespace collapsed to single spaces and outer whitespace dropped. -/
def normalizeName (s : String) : String :=
  ⟨((s.data.map Char.toLower).foldl collapseStep ([], false)).1⟩

/-- Great-circle distance between two cleaned records in meters
(turf's haversine, scaled from kilometers). -/
noncomputable def distMeters (a b : CleanRec) : ℝ :=
  1000 * turfDistanceKm (a.lng : ℝ) (a.lat : ℝ) (b.lng : ℝ) (b.lat : ℝ)

/-- Modelled from the spec: the duplicate test of `dedup` — equal
normalized names AND great-circle distance < 50 m (spec section 4.1). -/
noncomputable def dupB (a b : CleanRec) : Bool :=
  decide (normalizeName a.name = normalizeName b.name) && decide (distMeters a b < 50)

/-- Modelled from the spec: `dedup` keeps a record iff no
previously-kept record is a duplicate of it (first occurrence wins). -/
noncomputable def dedupGo (acc : List CleanRec) : List CleanRec → List CleanRec
  | [] => []
  | r :: rest =>
    if acc.any (fun k => dupB k r) then dedupGo acc rest
    else r :: dedupGo (r :: acc) rest

/-- Modelled from the spec: `dedup(cleanedRecords)` (spec section 4.1). -/
noncomputable def dedup (l : List CleanRec) : List CleanRec := dedupGo [] l

/-- Modelled from the spec: the ranking key of `search_by_name` — exact
prefix match first, then ascending substring position, then alphabetical
(spec section 4.3). -/
def firstIndexOfL : List Char → List Char → Nat
  | [], _ => 0
  | c :: t, q => if leadsWith q (c :: t) then 0 else firstIndexOfL t q + 1

/-- Modelled from the spec: result `a` may precede result `b` under the
spec's ranking order for normalised query `nq`. -/
def rankLEb (nq a b : String) : Bool :=
  let pa := if leadsWith nq.data (jsToLower a).data then 0 else 1
  let pb := if leadsWith nq.data (jsToLower b).data then 0 else 1
  let qa := firstIndexOfL (jsToLower a).data nq.data
  let qb := firstIndexOfL (jsToLower b).data nq.data
  decide (pa < pb) ||
    (decide (pa = pb) &&
      (decide (qa < qb) ||
        (decide (qa = qb) && decide (jsToLower a ≤ jsToLower b))))

/-- Modelled from the spec: a result list obeys the spec's ranking order. -/
def specOrdered (nq : String) (rs : List SearchResult) : Prop :=
  List.Pairwise (fun a b => rankLEb nq a.name b.name = true) rs

/-- Concrete features for closed instances: dataset order differs from
the spec ranking for the query `mark`. -/
def cexFA : Feature :=
  { name := some "bmark", name_clean := none, category_group := none
    amenity := none, lng := 0, lat := 0 }

/-- Second concrete feature: an exact prefix match for `mark`. -/
def cexFB : Feature :=
  { name := some "mark", name_clean := none, category_group := none
    amenity := none, lng := 0, lat := 0 }

/-- Counterexample collection for the ranking claim. -/
def cexPois : List Feature := [cexFA, cexFB]

/-- The `/search` output on `cexPois` for query `mark`. -/
def cexOut : List SearchResult := [toSearchResult cexFA, toSearchResult cexFB]

/-- A concrete enriched POI used by closed instances. -/
def wFeat : Feature :=
  { name := some "F-8 Markaz", name_clean := none, category_group := some "Commercial"
    amenity := none, lng := 73.0479, lat := 33.6844 }

/-- A one-element POI collection for closed instances. -/
def wPois : List Feature := [wFeat]

/-- A raw frontend record inside the bounding box. -/
def cexRaw : RawFeature :=
  { coordinates := some (73.10, 33.70), name := some "X", amenity := none
    category_group := none }

/-- A region boundary polygon (closed ring) that does not contain
`cexRaw`'s point even though the point is inside the bounding box. -/
def cexBoundary : List (ℚ × ℚ) :=
  [(73.0, 33.61), (73.02, 33.61), (73.0, 33.63), (73.0, 33.61)]

/-- A second raw record for the amended-validation instance. -/
def cexRaw2 : RawFeature :=
  { coordinates := some (73.05, 33.68), name := some "Y", amenity := none
    category_group := none }

/-- An OSM element whose only name-like tag is `shop`. -/
def cexOsm : OsmElement :=
  { lat := some 33.7, lon := some 73.05
    tags := some { name := none, amenity := none, tourism := none, shop := some "mall" } }

/-- An OSM element with falsy name-like tags and a shop tag. -/
def wOsm : OsmElement :=
  { lat := some 33, lon := some 73
    tags := some { name := none, amenity := some "", tourism := none, shop := some "mall" } }

/-- An OSM element with no name tag but truthy amenity and tourism tags. -/
def wOsm2 : OsmElement :=
  { lat := some 33, lon := some 73
    tags := some { name := none, amenity := some "cafe", tourism := some "hotel"
                   shop := some "mall" } }

/-- A cleaned record for the dedup closed instance. -/
def wRec : CleanRec := { name := "Centaurus Mall", lng := 73.0623, lat := 33.7135 }

theorem jsIncludesL_nil (s : List Char) : jsIncludesL s [] = true := by
  cases s with
  | nil => rfl
  | cons c t => simp [jsIncludesL, leadsWith]

theorem toLower_ws {c : Char} (h : isJsWs c = true) : Char.toLower c = c := by
  unfold isJsWs at h
  simp only [Bool.or_eq_true, decide_eq_true_eq] at h
  rcases h with ((((h | h) | h) | h) | h) | h <;> subst h <;> decide

theorem trimL_all_ws (l : List Char) (h : ∀ c ∈ l, isJsWs c = true) : jsTrimL l = [] := by
  unfold jsTrimL
  rw [List.dropWhile_eq_nil_iff.mpr h]
  rfl

theorem normQuery_all_ws (q : String) (h : ∀ c ∈ q.data, isJsWs c = true) :
    normQuery q = "" := by
  unfold normQuery jsTrim jsToLower
  have hmap : q.data.map Char.toLower = q.data := by
    conv_rhs => rw [← List.map_id q.data]
    exact List.map_congr_left fun c hc => toLower_ws (h c hc)
  simp only [hmap]
  rw [trimL_all_ws q.data h]

/-- C9: a whitespace-only query does not fail: it passes the JS falsiness
check, normalises to the empty string, which is a substring of every
name, so `/search` returns the first 20 POIs of the dataset in dataset
order. -/
theorem whitespace_query_first20 (q : String) (pois : List Feature)
    (hne : q.data ≠ []) (hws : ∀ c ∈ q.data, isJsWs c = true) :
    searchHandler (some q) (some pois) = .ok ((pois.take 20).map toSearchResult) := by
  have hq : q ≠ "" := by
    intro h
    subst h
    exact hne rfl
  simp only [searchHandler]
  rw [if_neg hq]
  congr 1
  unfold searchImpl
  rw [normQuery_all_ws q hws]
  have hfilter : List.filter (fun f => jsIncludes (jsToLower (searchName f)) "") pois
      = pois :=
    List.filter_eq_self.mpr fun f _ => jsIncludesL_nil (jsToLower (searchName f)).data
  rw [hfilter]

theorem whitespace_query_first20_witness :
    searchHandler (some " ") (some wPois) = .ok ((wPois.take 20).map toSearchResult) :=
  whitespace_query_first20 " " wPois (by decide) (by decide)

/-- C2: for a non-empty query the search returns a list (never an error)
of at most 20 entries, each coming from a collection feature whose
lowercased name contains the normalised query as a substring; zero
matches give the empty list. -/
theorem search_cap_and_substring (q : String) (pois : List Feature) (hq : q ≠ "") :
    ∃ rs, searchHandler (some q) (some pois) = .ok rs ∧ rs.length ≤ 20 ∧
      (∀ r ∈ rs, ∃ f ∈ pois, r = toSearchResult f ∧
        jsIncludes (jsToLower (searchName f)) (normQuery q) = true) ∧
      ((∀ f ∈ pois, jsIncludes (jsToLower (searchName f)) (normQuery q) = false) →
        rs = []) := by
  refine ⟨searchImpl q pois, ?_, ?_, ?_, ?_⟩
  · simp only [searchHandler]
    rw [if_neg hq]
  · unfold searchImpl
    rw [List.length_map, List.length_take]
    exact min_le_left _ _
  · intro r hr
    unfold searchImpl at hr
    obtain ⟨f, hf, rfl⟩ := List.mem_map.mp hr
    have hf2 := List.mem_filter.mp (List.mem_of_mem_take hf)
    exact ⟨f, hf2.1, rfl, hf2.2⟩
  · intro hall
    unfold searchImpl
    rw [List.filter_eq_nil_iff.mpr fun f hf => by rw [hall f hf]; exact Bool.false_ne_true]
    rfl

theorem search_cap_and_substring_witness :
    ∃ rs, searchHandler (some "markaz") (some wPois) = .ok rs ∧ rs.length ≤ 20 ∧
      (∀ r ∈ rs, ∃ f ∈ wPois, r = toSearchResult f ∧
        jsIncludes (jsToLower (searchName f)) (normQuery "markaz") = true) ∧
      ((∀ f ∈ wPois, jsIncludes (jsToLower (searchName f)) (normQuery "markaz") = false) →
        rs = []) :=
  search_cap_and_substring "markaz" wPois (by decide)

/-- C3 counterexample: on the two-feature collection `cexPois` the query
`mark` returns the features in dataset order, with the non-prefix match
`bmark` before the exact prefix match `mark`, violating the spec's
ranking order (prefix matches first). -/
theorem search_ranking_cex :
    searchHandler (some "mark") (some cexPois) = .ok cexOut ∧
      ¬ specOrdered "mark" cexOut := by
  constructor
  · rfl
  · intro h
    unfold specOrdered cexOut at h
    cases h with
    | cons h1 _ =>
      exact absurd (h1 (toSearchResult cexFB) (List.mem_cons_self _ _)) (by decide)

/-- C3 amended: `/search` performs no re-ranking — the returned results
are the matched features in the collection's input order (truncated to
20), i.e. a sublist of the feature list's response mapping. -/
theorem search_input_order (q : String) (pois : List Feature) (hq : q ≠ "") :
    ∃ rs, searchHandler (some q) (some pois) = .ok rs ∧
      rs.Sublist (pois.map toSearchResult) := by
  refine ⟨searchImpl q pois, ?_, ?_⟩
  · simp only [searchHandler]
    rw [if_neg hq]
  · unfold searchImpl
    exact List.Sublist.map toSearchResult
      ((List.take_sublist _ _).trans (List.filter_sublist _))

theorem search_input_order_witness :
    ∃ rs, searchHandler (some "mark") (some wPois) = .ok rs ∧
      rs.Sublist (wPois.map toSearchResult) :=
  search_input_order "mark" wPois (by decide)

theorem scan_foldl (dist : Feature → ℝ) (l : List Feature) (b0 : Feature) :
    ∃ r, List.foldl (scanStep dist) (some (b0, dist b0)) l = some (r, dist r) ∧
      dist r ≤ dist b0 ∧ (∀ g ∈ l, dist r ≤ dist g) ∧
      (r = b0 ∨ ∃ u v, l = u ++ r :: v ∧ dist r < dist b0 ∧ ∀ g ∈ u, dist r < dist g) := by
  induction l generalizing b0 with
  | nil => exact ⟨b0, rfl, le_refl _, by simp, Or.inl rfl⟩
  | cons f t ih =>
    by_cases h : dist f < dist b0
    · obtain ⟨r, hr, hle, hall, hdec⟩ := ih f
      refine ⟨r, ?_, le_of_lt (lt_of_le_of_lt hle h), ?_, ?_⟩
      · rw [List.foldl_cons]
        simp only [scanStep]
        rw [if_pos h]
        exact hr
      · intro g hg
        rcases List.mem_cons.mp hg with rfl | hg
        · exact hle
        · exact hall g hg
      · rcases hdec with rfl | ⟨u, v, ht, hlt, hu⟩
        · exact Or.inr ⟨[], t, rfl, h, by simp⟩
        · refine Or.inr ⟨f :: u, v, by simp [ht], lt_trans hlt h, ?_⟩
          intro g hg
          rcases List.mem_cons.mp hg with rfl | hg
          · exact hlt
          · exact hu g hg
    · obtain ⟨r, hr, hle, hall, hdec⟩ := ih b0
      refine ⟨r, ?_, hle, ?_, ?_⟩
      · rw [List.foldl_cons]
        simp only [scanStep]
        rw [if_neg h]
        exact hr
      · intro g hg
        rcases List.mem_cons.mp hg with rfl | hg
        · exact le_trans hle (not_lt.mp h)
        · exact hall g hg
      · rcases hdec with rfl | ⟨u, v, ht, hlt, hu⟩
        · exact Or.inl rfl
        · refine Or.inr ⟨f :: u, v, by simp [ht], hlt, ?_⟩
          intro g hg
          rcases List.mem_cons.mp hg with rfl | hg
          · exact lt_of_lt_of_le hlt (not_lt.mp h)
          · exact hu g hg

theorem scan_spec (dist : Feature → ℝ) (l : List Feature) (h : l ≠ []) :
    ∃ u b v, l = u ++ b :: v ∧ nearestScan dist l = some (b, dist b) ∧
      (∀ g ∈ l, dist b ≤ dist g) ∧ (∀ g ∈ u, dist b < dist g) := by
  match l, h with
  | f :: t, _ =>
    obtain ⟨r, hr, _, hall, hdec⟩ := scan_foldl dist t f
    have hfold : nearestScan dist (f :: t) = some (r, dist r) := by
      unfold nearestScan
      rw [List.foldl_cons]
      simp only [scanStep]
      exact hr
    rcases hdec with rfl | ⟨u, v, ht, hlt, hu⟩
    · refine ⟨[], r, t, rfl, hfold, ?_, by simp⟩
      intro g hg
      rcases List.mem_cons.mp hg with rfl | hg
      · exact le_refl _
      · exact hall g hg
    · refine ⟨f :: u, r, v, by simp [ht], hfold, ?_, ?_⟩
      · intro g hg
        rcases List.mem_cons.mp hg with rfl | hg
        · exact le_of_lt hlt
        · exact hall g hg
      · intro g hg
        rcases List.mem_cons.mp hg with rfl | hg
        · exact hlt
        · exact hu g hg

theorem reverseHandler_eq_core (latS lngS : String) (pois : List Feature)
    (h1 : latS ≠ "") (h2 : lngS ≠ "") :
    reverseHandler (some latS) (some lngS) (some pois) = reverseCore latS lngS pois := by
  simp only [reverseHandler]
  rw [if_neg (by simp [h1, h2])]

theorem reverseCore_parse (latS lngS : String) (pois : List Feature) (a b : ℚ)
    (hlat : jsParseFloat latS = some a) (hlng : jsParseFloat lngS = some b) :
    reverseCore latS lngS pois =
      match nearestScan (distQ b a) pois with
      | none => .error .notFound
      | some (f, d) => .ok (toRevOutput f d) := by
  unfold reverseCore
  rw [hlat, hlng]

/-- C1: reverse geocoding returns the true nearest POI — for every query
point with numeric lat/lng and a non-empty collection, the scan of
`/reverse` returns a POI whose great-circle (turf haversine) distance is
less than or equal to the distance to every other POI, and the handler
answers 200 with that POI. -/
theorem reverse_returns_true_nearest (latS lngS : String) (pois : List Feature)
    (a b : ℚ) (hlat : jsParseFloat latS = some a) (hlng : jsParseFloat lngS = some b)
    (hq1 : latS ≠ "") (hq2 : lngS ≠ "") (hne : pois ≠ []) :
    ∃ f d, nearestScan (distQ b a) pois = some (f, d) ∧ f ∈ pois ∧
      d = distQ b a f ∧ (∀ g ∈ pois, d ≤ distQ b a g) ∧
      reverseHandler (some latS) (some lngS) (some pois) = .ok (toRevOutput f d) := by
  obtain ⟨u, f, v, hdecomp, hscan, hmin, _⟩ := scan_spec (distQ b a) pois hne
  refine ⟨f, distQ b a f, hscan, ?_, rfl, hmin, ?_⟩
  · rw [hdecomp]
    exact List.mem_append_right u (List.mem_cons_self f v)
  · rw [reverseHandler_eq_core latS lngS pois hq1 hq2,
      reverseCore_parse latS lngS pois a b hlat hlng, hscan]

theorem reverse_returns_true_nearest_witness :
    ∃ f d, nearestScan (distQ 73 34) wPois = some (f, d) ∧ f ∈ wPois ∧
      d = distQ 73 34 f ∧ (∀ g ∈ wPois, d ≤ distQ 73 34 g) ∧
      reverseHandler (some "34") (some "73") (some wPois) = .ok (toRevOutput f d) :=
  reverse_returns_true_nearest "34" "73" wPois 34 73
    (by norm_num +decide [jsParseFloat, jsParseFloatL, headIs, parseExpPart, digitsToNat,
      List.takeWhile, List.dropWhile, isJsWs, Char.isDigit, Char.toNat,
      show ('3'.val).toNat = 51 from by decide,
      show ('4'.val).toNat = 52 from by decide])
    (by norm_num +decide [jsParseFloat, jsParseFloatL, headIs, parseExpPart, digitsToNat,
      List.takeWhile, List.dropWhile, isJsWs, Char.isDigit, Char.toNat,
      show ('7'.val).toNat = 55 from by decide,
      show ('3'.val).toNat = 51 from by decide])
    (by decide) (by decide) (by decide)

/-- C4: with numeric lat/lng, `/reverse` fails with NotFound exactly when
the collection holds zero POIs; any non-empty collection — with no
restriction tying the query point to the region — yields the nearest POI
together with its distance in kilometers rounded to 2 decimals. -/
theorem reverse_notFound_iff_empty (latS lngS : String) (pois : List Feature)
    (a b : ℚ) (hlat : jsParseFloat latS = some a) (hlng : jsParseFloat lngS = some b)
    (hq1 : latS ≠ "") (hq2 : lngS ≠ "") :
    (reverseHandler (some latS) (some lngS) (some pois) = .error .notFound ↔ pois = []) ∧
    (pois ≠ [] → ∃ f d, nearestScan (distQ b a) pois = some (f, d) ∧ f ∈ pois ∧
      (∀ g ∈ pois, d ≤ distQ b a g) ∧
      reverseHandler (some latS) (some lngS) (some pois) = .ok (toRevOutput f d) ∧
      (toRevOutput f d).distance_km = round2 d) := by
  have hred : reverseHandler (some latS) (some lngS) (some pois) =
      match nearestScan (distQ b a) pois with
      | none => .error .notFound
      | some (f, d) => .ok (toRevOutput f d) := by
    rw [reverseHandler_eq_core latS lngS pois hq1 hq2,
      reverseCore_parse latS lngS pois a b hlat hlng]
  constructor
  · constructor
    · intro h
      by_contra hne
      obtain ⟨u, f, v, _, hscan, _, _⟩ := scan_spec (distQ b a) pois hne
      rw [hred, hscan] at h
      exact Except.noConfusion h
    · intro h
      subst h
      rw [hred]
      rfl
  · intro hne
    obtain ⟨u, f, v, hdecomp, hscan, hmin, _⟩ := scan_spec (distQ b a) pois hne
    refine ⟨f, distQ b a f, hscan, ?_, hmin, ?_, rfl⟩
    · rw [hdecomp]
      exact List.mem_append_right u (List.mem_cons_self f v)
    · rw [hred, hscan]

theorem reverse_notFound_iff_empty_witness :
    reverseHandler (some "33") (some "74") (some wPois) ≠ .error .notFound := by
  have h := reverse_notFound_iff_empty "33" "74" wPois 33 74
    (by norm_num +decide [jsParseFloat, jsParseFloatL, headIs, parseExpPart, digitsToNat,
      List.takeWhile, List.dropWhile, isJsWs, Char.isDigit, Char.toNat,
      show ('3'.val).toNat = 51 from by decide])
    (by norm_num +decide [jsParseFloat, jsParseFloatL, headIs, parseExpPart, digitsToNat,
      List.takeWhile, List.dropWhile, isJsWs, Char.isDigit, Char.toNat,
      show ('7'.val).toNat = 55 from by decide,
      show ('4'.val).toNat = 52 from by decide])
    (by decide) (by decide)
  intro hc
  exact (by decide : wPois ≠ []) (h.1.mp hc)

/-- C10: the `/reverse` scan is a pure function of the query point and
the collection (hence deterministic across repeated calls), and its
strict less-than comparison never replaces an equal-distance candidate:
the returned POI strictly beats every POI occurring before it, so among
equidistant nearest POIs the earliest in collection order is returned. -/
theorem reverse_first_wins (qLng qLat : ℚ) (pois : List Feature) (hne : pois ≠ []) :
    ∃ u f v, pois = u ++ f :: v ∧
      nearestScan (distQ qLng qLat) pois = some (f, distQ qLng qLat f) ∧
      (∀ g ∈ pois, distQ qLng qLat f ≤ distQ qLng qLat g) ∧
      (∀ g ∈ u, distQ qLng qLat f < distQ qLng qLat g) :=
  scan_spec (distQ qLng qLat) pois hne

theorem reverse_first_wins_witness :
    ∃ u f v, wPois = u ++ f :: v ∧
      nearestScan (distQ 73 33) wPois = some (f, distQ 73 33 f) ∧
      (∀ g ∈ wPois, distQ 73 33 f ≤ distQ 73 33 g) ∧
      (∀ g ∈ u, distQ 73 33 f < distQ 73 33 g) :=
  reverse_first_wins 73 33 wPois (by decide)

theorem searchHandler_missing_q (coll : Option (List Feature)) :
    searchHandler none coll = .error .invalidInput := rfl

theorem searchHandler_empty_q (coll : Option (List Feature)) :
    searchHandler (some "") coll = .error .invalidInput := rfl

theorem reverseHandler_missing (lat lng : Option String) (coll : Option (List Feature))
    (h : lat = none ∨ lng = none) :
    reverseHandler lat lng coll = .error .invalidInput := by
  rcases h with rfl | rfl
  · cases lng <;> rfl
  · cases lat <;> rfl

theorem reverseHandler_falsy (latS lngS : String) (coll : Option (List Feature))
    (h : latS = "" ∨ lngS = "") :
    reverseHandler (some latS) (some lngS) coll = .error .invalidInput := by
  simp only [reverseHandler]
  rw [if_pos h]

theorem reverseCore_parse_none (latS lngS : String) (pois : List Feature)
    (h : jsParseFloat latS = none ∨ jsParseFloat lngS = none) :
    reverseCore latS lngS pois = .error .invalidInput := by
  unfold reverseCore
  rcases h with h | h
  · rw [h]
  · rw [h]
    cases jsParseFloat latS <;> rfl

/-- C5: a missing or empty search query fails with the InvalidInput
result (HTTP 400), and `/reverse` fails with InvalidInput whenever lat or
lng is missing, empty, or parses to `NaN` — always as a typed error
value, never an uncaught fault (the handlers are total functions). -/
theorem invalid_input_errors :
    (∀ coll, searchHandler none coll = .error .invalidInput) ∧
    (∀ coll, searchHandler (some "") coll = .error .invalidInput) ∧
    (∀ lat lng coll, lat = none ∨ lng = none →
      reverseHandler lat lng coll = .error .invalidInput) ∧
    (∀ latS lngS coll, latS = "" ∨ lngS = "" →
      reverseHandler (some latS) (some lngS) coll = .error .invalidInput) ∧
    (∀ latS lngS pois, jsParseFloat latS = none ∨ jsParseFloat lngS = none →
      reverseHandler (some latS) (some lngS) (some pois) = .error .invalidInput) := by
  refine ⟨searchHandler_missing_q, searchHandler_empty_q, reverseHandler_missing,
    reverseHandler_falsy, ?_⟩
  intro latS lngS pois h
  by_cases hf : latS = "" ∨ lngS = ""
  · exact reverseHandler_falsy latS lngS (some pois) hf
  · push_neg at hf
    rw [reverseHandler_eq_core latS lngS pois hf.1 hf.2]
    exact reverseCore_parse_none latS lngS pois h

theorem invalid_input_errors_witness :
    searchHandler none (some wPois) = .error .invalidInput ∧
    reverseHandler (some "abc") (some "73") (some wPois) = .error .invalidInput :=
  ⟨invalid_input_errors.1 (some wPois),
    invalid_input_errors.2.2.2.2 "abc" "73" wPois (Or.inl (by rfl))⟩

/-- C6 counterexample: the raw record `cexRaw` lies inside the bounding
box but outside the boundary polygon `cexBoundary`, yet the `fetchPOIs`
validation keeps it — acceptance is decided by the bounding box alone,
with no point-in-polygon test against any boundary. -/
theorem validate_pip_cex :
    validateRecords [cexRaw] = [parseRawFeature cexRaw] ∧
    inIsbBounds (parseRawFeature cexRaw) = true ∧
    pointInPolygon cexBoundary (73.10, 33.70) = false ∧
    cexRaw.coordinates = some (73.10, 33.70) := by
  refine ⟨?_, ?_, ?_, rfl⟩
  · norm_num [validateRecords, parseRawFeature, cexRaw, truthyQ, inIsbBounds, jsOrStr]
  · norm_num [inIsbBounds, parseRawFeature, cexRaw, jsOrStr]
  · norm_num [pointInPolygon, cexBoundary, ringEdges, crossesRay,
      List.countP_cons, List.countP_nil]

/-- C6 amended: record validation keeps a record exactly on truthy
coordinates plus the bounding-box test; no point-in-polygon test is
performed, so a record whose point is outside an arbitrary boundary
polygon is still kept whenever it passes the bounding-box filter. -/
theorem validate_bbox_only (B : List (ℚ × ℚ)) (r : RawFeature) (pt : ℚ × ℚ)
    (hco : r.coordinates = some pt) (hpip : pointInPolygon B pt = false)
    (h1 : truthyQ (parseRawFeature r).lat = true)
    (h2 : truthyQ (parseRawFeature r).lon = true)
    (h3 : inIsbBounds (parseRawFeature r) = true) :
    validateRecords [r] = [parseRawFeature r] := by
  unfold validateRecords
  simp [h1, h2, h3]

theorem validate_bbox_only_witness :
    validateRecords [cexRaw2] = [parseRawFeature cexRaw2] :=
  validate_bbox_only [(0, 0), (1, 0), (0, 1), (0, 0)] cexRaw2 (73.05, 33.68)
    rfl
    (by norm_num [pointInPolygon, ringEdges, crossesRay, List.countP_cons, List.countP_nil])
    (by norm_num [truthyQ, parseRawFeature, cexRaw2])
    (by norm_num [truthyQ, parseRawFeature, cexRaw2])
    (by norm_num [inIsbBounds, parseRawFeature, cexRaw2])

/-- C7 counterexample: an element tagged only with `shop='mall'` gets the
display name `Unnamed POI` from `/api/pois`, while the spec's fallback
priority (name → amenity → shop → tourism) would yield `mall` — the code
never consults the shop tag for the name. -/
theorem poi_name_shop_cex :
    cexOsm.tags.bind OsmTags.name = none ∧
    cexOsm.tags.bind OsmTags.shop = some "mall" ∧
    apiPoiName cexOsm = "Unnamed POI" ∧
    specNameFallback cexOsm = "mall" ∧
    apiPoiName cexOsm ≠ specNameFallback cexOsm := by
  refine ⟨rfl, rfl, rfl, rfl, ?_⟩
  decide

/-- C7 amended: for every record with no (truthy) name tag the display
name of `/api/pois` follows the fallback chain amenity → tourism →
`Unnamed POI`: a truthy amenity tag wins, otherwise a truthy tourism tag
wins, otherwise the name is `Unnamed POI`; and the shop tag is never
consulted — changing it leaves the display name of any element
unchanged. -/
theorem poi_name_fallback (el : OsmElement)
    (hn : el.tags.bind OsmTags.name = none ∨ el.tags.bind OsmTags.name = some "") :
    (∀ a, el.tags.bind OsmTags.amenity = some a → a ≠ "" → apiPoiName el = a) ∧
    ((el.tags.bind OsmTags.amenity = none ∨ el.tags.bind OsmTags.amenity = some "") →
      ∀ t, el.tags.bind OsmTags.tourism = some t → t ≠ "" → apiPoiName el = t) ∧
    ((el.tags.bind OsmTags.amenity = none ∨ el.tags.bind OsmTags.amenity = some "") →
      (el.tags.bind OsmTags.tourism = none ∨ el.tags.bind OsmTags.tourism = some "") →
      apiPoiName el = "Unnamed POI") ∧
    (∀ e s, apiPoiName (setShop e s) = apiPoiName e) := by
  refine ⟨?_, ?_, ?_, ?_⟩
  · intro a ha hane
    unfold apiPoiName
    rcases hn with hn | hn <;> rw [hn, ha] <;> simp [jsOrStr, hane]
  · intro hamen t ht htne
    unfold apiPoiName
    rcases hn with hn | hn <;> rcases hamen with ha | ha <;> rw [hn, ha, ht] <;>
      simp [jsOrStr, htne]
  · intro hamen htour
    unfold apiPoiName
    rcases hn with hn | hn <;> rcases hamen with ha | ha <;> rcases htour with ht | ht <;>
      rw [hn, ha, ht] <;> rfl
  · intro e s
    cases htags : e.tags with
    | none => simp [apiPoiName, setShop, htags]
    | some t => simp [apiPoiName, setShop, htags]

theorem poi_name_fallback_witness :
    apiPoiName wOsm = "Unnamed POI" ∧ apiPoiName wOsm2 = "cafe" ∧
    ∀ s, apiPoiName (setShop wOsm2 s) = apiPoiName wOsm2 := by
  have h := poi_name_fallback wOsm (Or.inl rfl)
  have h2 := poi_name_fallback wOsm2 (Or.inl rfl)
  exact ⟨h.2.2.1 (Or.inr rfl) (Or.inl rfl), h2.1 "cafe" rfl (by decide),
    fun s => h2.2.2.2 wOsm2 s⟩

theorem hav_neg (x : ℝ) : hav (-x) = hav x := by
  unfold hav
  rw [neg_div, Real.sin_neg]
  ring

theorem degToRad_neg (x : ℝ) : degToRad (-x) = -degToRad x := by
  unfold degToRad
  ring

theorem turfA_symm (aLng aLat bLng bLat : ℝ) :
    turfA aLng aLat bLng bLat = turfA bLng bLat aLng aLat := by
  unfold turfA
  have h1 : aLat - bLat = -(bLat - aLat) := by ring
  have h2 : aLng - bLng = -(bLng - aLng) := by ring
  rw [h1, h2, degToRad_neg, degToRad_neg, hav_neg, hav_neg]
  ring

theorem turfDistanceKm_symm (aLng aLat bLng bLat : ℝ) :
    turfDistanceKm aLng aLat bLng bLat = turfDistanceKm bLng bLat aLng aLat := by
  unfold turfDistanceKm
  rw [turfA_symm]

theorem distMeters_symm (a b : CleanRec) : distMeters a b = distMeters b a := by
  unfold distMeters
  rw [turfDistanceKm_symm]

theorem dedupGo_sublist (acc : List CleanRec) (l : List CleanRec) :
    (dedupGo acc l).Sublist l := by
  induction l generalizing acc with
  | nil => simp [dedupGo]
  | cons r rest ih =>
    by_cases h : acc.any (fun k => dupB k r) = true
    · simp only [dedupGo, if_pos h]
      exact (ih acc).trans (List.sublist_cons_self r rest)
    · simp only [dedupGo, if_neg h]
      exact List.Sublist.cons₂ r (ih (r :: acc))

theorem dedupGo_not_dup_acc (l : List CleanRec) :
    ∀ acc, ∀ r ∈ dedupGo acc l, ∀ k ∈ acc, dupB k r = false := by
  induction l with
  | nil =>
    intro acc r hr
    simp [dedupGo] at hr
  | cons x rest ih =>
    intro acc r hr k hk
    by_cases h : acc.any (fun k => dupB k x) = true
    · rw [dedupGo, if_pos h] at hr
      exact ih acc r hr k hk
    · rw [dedupGo, if_neg h] at hr
      rcases List.mem_cons.mp hr with rfl | hr
      · have h2 : acc.any (fun k => dupB k r) = false := Bool.eq_false_iff.mpr h
        exact Bool.eq_false_iff.mpr (List.any_eq_false.mp h2 k hk)
      · exact ih (x :: acc) r hr k (List.mem_cons_of_mem x hk)

theorem dedupGo_pairwise (l : List CleanRec) :
    ∀ acc, (dedupGo acc l).Pairwise (fun a b => dupB a b = false) := by
  induction l with
  | nil =>
    intro acc
    simp [dedupGo]
  | cons x rest ih =>
    intro acc
    by_cases h : acc.any (fun k => dupB k x) = true
    · rw [dedupGo, if_pos h]
      exact ih acc
    · rw [dedupGo, if_neg h]
      refine List.Pairwise.cons ?_ (ih (x :: acc))
      intro b hb
      exact dedupGo_not_dup_acc rest (x :: acc) b hb x (List.mem_cons_self x acc)

theorem dedupGo_first_kept (u : List CleanRec) :
    ∀ acc r v, (∀ e ∈ acc, dupB e r = false) → (∀ e ∈ u, dupB e r = false) →
      r ∈ dedupGo acc (u ++ r :: v) := by
  induction u with
  | nil =>
    intro acc r v hacc _
    have hany : acc.any (fun k => dupB k r) = false :=
      List.any_eq_false.mpr fun e he => by rw [hacc e he]; exact Bool.false_ne_true
    rw [List.nil_append, dedupGo, if_neg (by rw [hany]; exact Bool.false_ne_true)]
    exact List.mem_cons_self r _
  | cons x u2 ih =>
    intro acc r v hacc hu
    rw [List.cons_append]
    by_cases h : acc.any (fun k => dupB k x) = true
    · rw [dedupGo, if_pos h]
      exact ih acc r v hacc fun e he => hu e (List.mem_cons_of_mem x he)
    · rw [dedupGo, if_neg h]
      refine List.mem_cons_of_mem x ?_
      refine ih (x :: acc) r v ?_ fun e he => hu e (List.mem_cons_of_mem x he)
      intro e he
      rcases List.mem_cons.mp he with rfl | he
      · exact hu e (List.mem_cons_self e u2)
      · exact hacc e he

theorem dupB_false_dist (a b : CleanRec) (h : dupB a b = false)
    (hname : normalizeName a.name = normalizeName b.name) : 50 ≤ distMeters a b := by
  unfold dupB at h
  rw [decide_eq_true hname, Bool.true_and] at h
  exact not_lt.mp (of_decide_eq_false h)

/-- C8: the spec-modelled dedup keeps a sublist of the input (dropping
later duplicates) in which every pair of distinct kept records with equal
normalized names is at least 50 m apart (both orders, via symmetry of the
haversine distance), and a record preceded by no duplicate of itself —
in particular the first occurrence of any duplicate group — is kept. -/
theorem dedup_invariant (l : List CleanRec) :
    (dedup l).Sublist l ∧
    (∀ i j : Fin (dedup l).length, i ≠ j →
      normalizeName ((dedup l).get i).name = normalizeName ((dedup l).get j).name →
      50 ≤ distMeters ((dedup l).get i) ((dedup l).get j)) ∧
    (∀ u r v, l = u ++ r :: v → (∀ e ∈ u, dupB e r = false) → r ∈ dedup l) := by
  refine ⟨dedupGo_sublist [] l, ?_, ?_⟩
  · have hpw := List.pairwise_iff_get.mp (dedupGo_pairwise l [])
    intro i j hne hname
    rcases lt_or_gt_of_ne hne with hij | hij
    · exact dupB_false_dist _ _ (hpw i j hij) hname
    · have h := dupB_false_dist _ _ (hpw j i hij) hname.symm
      rw [distMeters_symm] at h
      exact h
  · intro u r v hl hu
    unfold dedup
    rw [hl]
    exact dedupGo_first_kept u [] r v (by intro e he; exact absurd he (List.not_mem_nil e)) hu

theorem dedup_invariant_witness : wRec ∈ dedup [wRec] :=
  (dedup_invariant [wRec]).2.2 [] wRec [] rfl
    (by intro e he; exact absurd he (List.not_mem_nil e))
